import Mathlib

/-!
Shallow embedding of `modules/processing/behavior.py` from cuckoo-modified.

The embedding covers the call-stream reconstructor `ParseProcessLog`
(row parsing, adjacent-duplicate folding, call-count ceiling, lazy and
eager read modes, reset, reporting-mode transition), the `Processes`
collector's file-size filter, the `Enhanced` service-action decoding,
the `Anomaly` listener, the `ProcessTree` listener, and the
orchestrator's fused listener-dispatch loop of `BehaviorAnalysis.run`.

Python dict-based call records become Lean structures; exceptions that a
function can raise and that matter to the claims become `Except`;
`StopIteration` of the iterator protocol becomes an `Option Call` result.
The external formatting collaborators (`convert_to_printable`,
`pretty_print_arg`, `pretty_print_retval`) are not part of this
repository; they are passed in as a `Formatters` record of pure
functions, which is how the code uses them (the conversion cache is
pure memoisation keyed on the raw value).
-/

namespace Cuckoo

/-- External formatting collaborators used by `ParseProcessLog._parse`
(`lib.cuckoo.common.utils`); pure functions per the callback contract. -/
structure Formatters where
  convert_to_printable : String → String
  pretty_print_arg : String → String → String → String → Option String
  pretty_print_retval : String → String → Bool → String → Option String

/-- One entry of the `arguments` list that `_parse` builds for a call:
keys `name`, `value`, optionally `raw_value` (absent in reporting mode)
and optionally `pretty_value`. -/
structure Argument where
  name : String
  value : String
  raw_value : Option String
  pretty_value : Option String
deriving DecidableEq, Repr

/-- The call-record dict built by `ParseProcessLog._parse` (behavior.py
lines 265-333), plus the `id` key that `cacheless_next` assigns
(`none` until assigned). `ret` models the dict key `"return"`. -/
structure Call where
  timestamp : String
  thread_id : String
  caller : String
  parentcaller : String
  category : String
  api : String
  status : Bool
  ret : String
  pretty_return : Option String
  arguments : List Argument
  repeated : Nat
  id : Option Nat
deriving DecidableEq, Repr

/-- The row handed to `_parse` by `log_call`: the nine header columns
followed by the (name, value) argument pairs.  `timestamp` is the
timestring that `log_call` computes from the process first-seen time
plus the context's millisecond offset; `returnval` is an int or a
string exactly as in the decoded data. -/
structure Row where
  timestamp : String
  thread_id : Nat
  caller : Nat
  parentcaller : Nat
  category : String
  api : String
  repeated : Nat
  status : Nat
  returnval : Nat ⊕ String
  args : List (String × String)
deriving DecidableEq, Repr

/-- Python's `"0x%.08x" % n`: lowercase hex, zero-padded to at least
eight digits, prefixed with `0x`. -/
def hex8 (n : Nat) : String :=
  let s := (Nat.toDigits 16 n).asString
  "0x" ++ (String.mk (List.replicate (8 - s.length) '0')) ++ s

/-- One argument entry as built in the loop of `_parse` (lines 289-307):
printable value always; `raw_value` only when not in reporting mode;
optional pretty-printed annotation. -/
def parseArgument (F : Formatters) (reporting_mode : Bool)
    (category api : String) (arg : String × String) : Argument :=
  let v := F.convert_to_printable arg.2
  { name := arg.1
    value := v
    raw_value := if reporting_mode then none else some arg.2
    pretty_value := F.pretty_print_arg category api arg.1 v }

/-- `ParseProcessLog._parse` on a well-formed row: header destructuring,
hex-formatted addresses, boolean success flag, hex-or-printable return
value, argument list, repeat count.  Malformed rows (too few columns, or
argument entries that fail to destructure) are logged and skipped by the
code and are outside the `Row` type, which only represents well-formed
rows. -/
def parseRow (F : Formatters) (reporting_mode : Bool) (row : Row) : Call :=
  let st : Bool := row.status != 0
  let rv : String :=
    match row.returnval with
    | Sum.inl n => hex8 n
    | Sum.inr s => F.convert_to_printable s
  { timestamp := row.timestamp
    thread_id := toString row.thread_id
    caller := hex8 row.caller
    parentcaller := hex8 row.parentcaller
    category := row.category
    api := row.api
    status := st
    ret := rv
    pretty_return := F.pretty_print_retval row.category row.api st rv
    arguments := row.args.map (parseArgument F reporting_mode row.category row.api)
    repeated := row.repeated
    id := none }

/-- `ParseProcessLog.compare_calls` (lines 118-129): two calls are equal
iff api name, status, argument list and return value coincide. -/
def compare_calls (a b : Call) : Bool :=
  decide (a.api = b.api) && decide (a.status = b.status) &&
    decide (a.arguments = b.arguments) && decide (a.ret = b.ret)

/-- The mutable state of a `ParseProcessLog` that drives the lazy read
path: `raw` is the full decoded content of the log file (the sequence of
call rows the decoder callbacks would deliver, in file order), `stream`
the not-yet-consumed suffix (the file position), `lastcall` the pending
call awaiting duplicate comparison, and the two counters. -/
structure LogState where
  raw : List Row
  stream : List Row
  lastcall : Option Call
  reporting_mode : Bool
  api_count : Nat
  call_id : Nat
deriving Repr

/-- `ParseProcessLog.reset` (lines 109-116) restricted to the fields of
`LogState`: rewind the file, drop the pending call, zero the counters.
(The eager-mode `api_pointer` is reset at the `PState` level.) -/
def resetState (s : LogState) : LogState :=
  { s with stream := s.raw, lastcall := none, api_count := 0, call_id := 0 }

/-- `ParseProcessLog.wait_for_lastcall` (lines 131-144): if no call is
pending, pull decode events until one is produced or the file ends
(EOFError and a false `read_next_message` are both clean end-of-stream).
Each pulled call row is parsed under the current reporting mode, exactly
as `log_call` → `_parse` does. -/
def wait_for_lastcall (F : Formatters) (s : LogState) : LogState × Bool :=
  match s.lastcall with
  | some _ => (s, true)
  | none =>
    match s.stream with
    | [] => (s, false)
    | r :: rest =>
      ({ s with stream := rest, lastcall := some (parseRow F s.reporting_mode r) }, true)

/-- The duplicate-folding loop of `cacheless_next` (lines 161-165):
keep pulling the next call and, while it compares equal to `nextcall`,
accumulate its repeat count plus one and drop it; stop at the first
non-equal call (which stays pending) or at end-of-stream. -/
def mergeLoop (F : Formatters) (reporting_mode : Bool) (nextcall : Call) :
    List Row → Call × Option Call × List Row
  | [] => (nextcall, none, [])
  | r :: rest =>
    let c := parseRow F reporting_mode r
    if compare_calls nextcall c then
      mergeLoop F reporting_mode
        { nextcall with repeated := nextcall.repeated + c.repeated + 1 } rest
    else
      (nextcall, some c, rest)

/-- `ParseProcessLog.cacheless_next` (lines 146-170): wait for a pending
call (exhaustion resets and stops), apply the call-count ceiling (a
non-zero `api_limit` exceeded resets and stops), fold adjacent
duplicates, assign the sequence id, and return the record.  A `none`
first component is the `StopIteration` of the source. -/
def cacheless_next (F : Formatters) (api_limit : Nat) (s : LogState) :
    Option Call × LogState :=
  let w := wait_for_lastcall F s
  if w.2 = false then
    (none, resetState w.1)
  else if api_limit ≠ 0 ∧ w.1.api_count + 1 > api_limit then
    (none, resetState w.1)
  else
    match w.1.lastcall with
    | none => (none, resetState w.1)
    | some nextcall =>
      let m := mergeLoop F w.1.reporting_mode nextcall w.1.stream
      (some { m.1 with id := some w.1.call_id },
       { w.1 with stream := m.2.2, lastcall := m.2.1,
                  api_count := w.1.api_count + 1, call_id := w.1.call_id + 1 })

/-- Size of the unread part of a stream: each successful `cacheless_next`
strictly decreases it, which bounds the number of reads. -/
def lsMeasure (s : LogState) : Nat :=
  s.stream.length + (if s.lastcall.isSome then 1 else 0)

/-- Iterate `cacheless_next` to exhaustion, collecting the records and
the final state.  `fuel` only bounds the recursion; any `fuel`
exceeding `lsMeasure` of the state gives the exact unbounded behaviour
of the source's iteration, since each produced record strictly decreases
`lsMeasure` and exhaustion stops the loop. -/
def drainAux (F : Formatters) (api_limit : Nat) :
    Nat → LogState → List Call × LogState
  | 0, s => ([], s)
  | fuel + 1, s =>
    match cacheless_next F api_limit s with
    | (none, s') => ([], s')
    | (some c, s') =>
      let rest := drainAux F api_limit fuel s'
      (c :: rest.1, rest.2)

/-- A fresh `ParseProcessLog` lazy state over a decoded log content. -/
def initState (raw : List Row) : LogState :=
  { raw := raw, stream := raw, lastcall := none, reporting_mode := false,
    api_count := 0, call_id := 0 }

/-- All call records produced by iterating a fresh lazy
`ParseProcessLog` over `raw` to exhaustion.  `raw.length + 1` fuel
suffices: `lsMeasure (initState raw) = raw.length` bounds the number of
produced records and one more step observes the exhaustion. -/
def drainCalls (F : Formatters) (api_limit : Nat) (raw : List Row) : List Call :=
  (drainAux F api_limit (raw.length + 1) (initState raw)).1

/-- `cacheless_next` with the call-count ceiling removed, following the
spec's words that a zero configured limit disables the check; used to
compare against `cacheless_next` at limit `0`. -/
def cacheless_next_unbounded (F : Formatters) (s : LogState) :
    Option Call × LogState :=
  let w := wait_for_lastcall F s
  if w.2 = false then
    (none, resetState w.1)
  else
    match w.1.lastcall with
    | none => (none, resetState w.1)
    | some nextcall =>
      let m := mergeLoop F w.1.reporting_mode nextcall w.1.stream
      (some { m.1 with id := some w.1.call_id },
       { w.1 with stream := m.2.2, lastcall := m.2.1,
                  api_count := w.1.api_count + 1, call_id := w.1.call_id + 1 })

/-- The whole `ParseProcessLog` state: the caching policy flag
(`cfg.processing.ram_boost`), the lazy-path log state, and in eager
mode the pre-drained `api_call_cache` with its cursor.  The source
terminates the cache with a `None` sentinel; here reading past the end
of the list plays that role. -/
structure PState where
  ram_boost : Bool
  log : LogState
  api_call_cache : List Call
  api_pointer : Nat
deriving Repr

/-- `ParseProcessLog.reset` (lines 109-116): rewind the file position,
drop the pending call, zero the counters and the cache cursor. -/
def reset (s : PState) : PState :=
  { s with log := resetState s.log, api_pointer := 0 }

/-- `ParseProcessLog.__init__` (lines 28-63) after the identity pass:
in eager mode (`ram_boost`) the whole stream is drained once through
`cacheless_next` into `api_call_cache` (leaving the log state reset by
the final `StopIteration`); in lazy mode nothing is pre-read. -/
def initPState (F : Formatters) (api_limit : Nat) (ram_boost : Bool)
    (raw : List Row) : PState :=
  if ram_boost then
    { ram_boost := true
      log := (drainAux F api_limit (raw.length + 1) (initState raw)).2
      api_call_cache := (drainAux F api_limit (raw.length + 1) (initState raw)).1
      api_pointer := 0 }
  else
    { ram_boost := false, log := initState raw
      api_call_cache := [], api_pointer := 0 }

/-- `ParseProcessLog.next` (lines 172-184): in eager mode index into the
cache (the sentinel resets and stops); in lazy mode delegate to
`cacheless_next`. -/
def next (F : Formatters) (api_limit : Nat) (s : PState) :
    Option Call × PState :=
  if s.ram_boost then
    match s.api_call_cache[s.api_pointer]? with
    | none => (none, reset s)
    | some c => (some c, { s with api_pointer := s.api_pointer + 1 })
  else
    ((cacheless_next F api_limit s.log).1,
     { s with log := (cacheless_next F api_limit s.log).2 })

/-- Strip the `raw_value` of every argument of a record, as the loop in
`begin_reporting` (lines 260-263) does to a cached entry. -/
def stripCall (c : Call) : Call :=
  { c with arguments := c.arguments.map (fun a => { a with raw_value := none }) }

/-- `ParseProcessLog.begin_reporting` (lines 252-263): switch on
reporting mode; additionally, in eager mode, delete every cached
argument's `raw_value` in place (the loop stops at the terminating
sentinel, i.e. strips every real record). -/
def begin_reporting (s : PState) : PState :=
  if s.ram_boost then
    { s with log := { s.log with reporting_mode := true },
             api_call_cache := s.api_call_cache.map stripCall }
  else
    { s with log := { s.log with reporting_mode := true } }

/-- Remaining number of reads an iteration of `next` can perform. -/
def pMeasure (s : PState) : Nat :=
  if s.ram_boost then s.api_call_cache.length - s.api_pointer else lsMeasure s.log

/-- Iterate `next` to exhaustion, collecting records and final state;
fuel exceeding `pMeasure` gives the exact unbounded behaviour. -/
def readAllAux (F : Formatters) (api_limit : Nat) :
    Nat → PState → List Call × PState
  | 0, s => ([], s)
  | fuel + 1, s =>
    match next F api_limit s with
    | (none, s') => ([], s')
    | (some c, s') =>
      let rest := readAllAux F api_limit fuel s'
      (c :: rest.1, rest.2)

/-- Read a stream to exhaustion from state `s`, as a `for` loop over the
`ParseProcessLog` iterator does. -/
def readAllFrom (F : Formatters) (api_limit : Nat) (s : PState) :
    List Call × PState :=
  readAllAux F api_limit (pMeasure s + 1) s

/-- The repeat counts of a record sequence. -/
def repeatsOf (l : List Call) : List Nat :=
  l.map (fun c => c.repeated)

/-- Does every argument of the record lack a retained raw value? -/
def rawFreeCall (c : Call) : Bool :=
  c.arguments.all (fun a => a.raw_value == none)

/-- Does every record of the sequence lack retained raw values? -/
def rawFreeList (l : List Call) : Bool :=
  l.all rawFreeCall

/-- Is the pending call, if any, free of retained raw values? -/
def lastcallRawFree (s : LogState) : Bool :=
  match s.lastcall with
  | none => true
  | some c => rawFreeCall c

/-- A directory entry as `Processes.run` (lines 343-392) sees it:
whether it is a subdirectory, and its `st_size`. -/
structure DirEntry where
  isDir : Bool
  size : Nat
deriving DecidableEq, Repr

/-- The size-ceiling test of `Processes.run` line 366: a file is skipped
iff its size exceeds `cfg.processing.analysis_size_limit`. -/
def sizeSkip (analysis_size_limit : Nat) (e : DirEntry) : Bool :=
  e.size > analysis_size_limit

/-- The entries `Processes.run` keeps for parsing: not a subdirectory
and not over the size ceiling. -/
def keptEntries (analysis_size_limit : Nat) (entries : List DirEntry) :
    List DirEntry :=
  entries.filter (fun e => !e.isDir && !sizeSkip analysis_size_limit e)

/-- A Python 2 value as it appears in the `Enhanced` service-action
lookup: the dict keys are ints, the argument value is a string. -/
inductive PyVal where
  | int : Int → PyVal
  | str : String → PyVal
deriving DecidableEq, Repr

/-- Python 2 `==` between such values: cross-type int/str comparison is
unequal. -/
def pyEq : PyVal → PyVal → Bool
  | PyVal.int a, PyVal.int b => a == b
  | PyVal.str a, PyVal.str b => a == b
  | _, _ => false

/-- Python 2 `>=` between such values: same-type comparisons are the
usual ones; mixed-type comparison falls back to ordering the type names,
and `"int" < "str"`, so any str is `>=` any int and no int is `>=` any
str. -/
def pyGe : PyVal → PyVal → Bool
  | PyVal.int a, PyVal.int b => decide (b ≤ a)
  | PyVal.str a, PyVal.str b => !decide (a < b)
  | PyVal.str _, PyVal.int _ => true
  | PyVal.int _, PyVal.str _ => false

/-- `dict.get` with the Python equality above. -/
def pyDictGet (k : PyVal) : List (PyVal × String) → Option String
  | [] => none
  | (k', v) :: rest => if pyEq k k' then some v else pyDictGet k rest

/-- The literal `codes` dict of `_get_service_action` (lines 694-697):
int keys. -/
def service_codes : List (PyVal × String) :=
  [(PyVal.int 1, "stop"), (PyVal.int 2, "pause"),
   (PyVal.int 3, "continue"), (PyVal.int 4, "info")]

/-- `Enhanced._process_call._get_service_action` (lines 692-700):
look the control code up in `codes`, defaulting to `"user"` when the
code is `>= 128` and `"notify"` otherwise — with Python 2 mixed-type
semantics for both the lookup and the comparison. -/
def get_service_action (control_code : PyVal) : String :=
  let dflt := if pyGe control_code (PyVal.int 128) then "user" else "notify"
  (pyDictGet control_code service_codes).getD dflt

/-- `_load_args` of `Enhanced._process_call` (lines 650-658): dict from
argument name to printable value; a repeated name keeps the last value,
as Python dict assignment does. -/
def load_args (c : Call) : List (String × String) :=
  c.arguments.map (fun a => (a.name, a.value))

/-- Lookup in a name/value list with last-assignment-wins dict
semantics. -/
def dictGetLast (k : String) (l : List (String × String)) : Option String :=
  l.foldl (fun acc p => if p.1 == k then some p.2 else acc) none

/-- The ControlService annotation of `Enhanced._process_call`
(lines 968-969): `event["data"]["action"] =
_get_service_action(args["ControlCode"])`, where `args` values are the
printable strings of `_parse`. -/
def enhancedServiceAction (c : Call) : Option String :=
  (dictGetLast "ControlCode" (load_args c)).map
    (fun v => get_service_action (PyVal.str v))

/-- The dict built by `ParseProcessLog.log_anomaly` (lines 212-222):
keys `thread_id`, `category`, `api`, `subcategory`, `funcname`, `msg` —
and, notably, no `arguments` key. -/
structure AnomalyCall where
  thread_id : String
  category : String
  api : String
  subcategory : String
  funcname : String
  msg : String
deriving DecidableEq, Repr

/-- `ParseProcessLog.log_anomaly` itself, argument order as in the
source. -/
def log_anomaly (subcategory tid funcname msg : String) : AnomalyCall :=
  { thread_id := tid, category := "anomaly", api := "",
    subcategory := subcategory, funcname := funcname, msg := msg }

/-- A call record as the listeners receive it: either a full `_parse`
record or a `log_anomaly` record (a Python dict lacking the `arguments`
key). -/
inductive CallDict where
  | parsed : Call → CallDict
  | anomalyRec : AnomalyCall → CallDict
deriving DecidableEq, Repr

/-- The `category` key, present on both record shapes. -/
def callCategory : CallDict → String
  | CallDict.parsed c => c.category
  | CallDict.anomalyRec a => a.category

/-- The `arguments` key; `none` models the `KeyError` raised when a
`log_anomaly` record is subscripted with `"arguments"`. -/
def callArgumentsKey : CallDict → Option (List Argument)
  | CallDict.parsed c => some c.arguments
  | CallDict.anomalyRec _ => none

/-- The process metadata passed alongside each call to
`event_apicall`. -/
structure ProcInfo where
  process_name : String
  process_id : Nat
  parent_id : Nat
deriving DecidableEq, Repr

/-- One entry of `Anomaly.anomalies`. -/
structure AnomEntry where
  name : String
  pid : Nat
  category : Option String
  funcname : Option String
  message : Option String
deriving DecidableEq, Repr

/-- The argument scan of `Anomaly.event_apicall` (lines 1008-1015):
each matching name reassigns the corresponding variable, so the last
occurrence wins. -/
def anomalyScan (args : List Argument) :
    Option String × Option String × Option String :=
  args.foldl
    (fun acc a =>
      (if a.name = "Subcategory" then some a.value else acc.1,
       if a.name = "FunctionName" then some a.value else acc.2.1,
       if a.name = "Message" then some a.value else acc.2.2))
    (none, none, none)

/-- `Anomaly.event_apicall` (lines 1000-1023): ignore calls whose
category is not `"anomaly"`; otherwise subscript `call["arguments"]`
(raising `KeyError` on a `log_anomaly` record) and append one entry
with the process name and id.  Returns the updated accumulator or the
uncaught exception. -/
def anomaly_event_apicall (call : CallDict) (process : ProcInfo)
    (anomalies : List AnomEntry) : Except String (List AnomEntry) :=
  if callCategory call ≠ "anomaly" then
    Except.ok anomalies
  else
    match callArgumentsKey call with
    | none => Except.error "KeyError: arguments"
    | some args =>
      let sc := anomalyScan args
      Except.ok (anomalies ++
        [{ name := process.process_name, pid := process.process_id,
           category := sc.1, funcname := sc.2.1, message := sc.2.2 }])

/-- The per-process node dict of `ProcessTree` (pid, parent id, name;
the module path and threads fields of the source are carried unchanged
and are irrelevant to the tree shape, so they are omitted). -/
structure PInfo where
  name : String
  pid : Nat
  parent_id : Nat
deriving DecidableEq, Repr

/-- A node of the process tree: its info dict and its `children`
list. -/
inductive PTree where
  | node : PInfo → List PTree → PTree
deriving Repr

/-- The `parent_id` of the node being inserted. -/
def parentIdOfTree : PTree → Nat
  | PTree.node i _ => i.parent_id

/-- `ProcessTree.add_node` (lines 1039-1053): walk the forest; a node
whose pid equals the inserted node's parent id receives it as a child,
every other node is searched recursively.  The `fuel` only bounds the
recursion depth; any fuel exceeding the forest depth gives the exact
behaviour of the source, and `ptreeRun` supplies more fuel than any
tree it can build is deep. -/
def addNodeAux : Nat → PTree → List PTree → List PTree
  | 0, _, forest => forest
  | fuel + 1, n, forest =>
    forest.map
      (fun t =>
        match t with
        | PTree.node i kids =>
          if i.pid == parentIdOfTree n then PTree.node i (kids ++ [n])
          else PTree.node i (addNodeAux fuel n kids))

/-- The `has_parent` scan of `ProcessTree.run` (lines 1073-1080): does
any recorded process carry this process's parent id as its pid? -/
def hasParentIn (ps : List PInfo) (p : PInfo) : Bool :=
  ps.any (fun q => q.pid == p.parent_id)

/-- `ProcessTree.run` (lines 1069-1093): processes without a known
parent become roots in recording order; every other process is then
inserted with `add_node` in recording order. -/
def ptreeRun (ps : List PInfo) : List PTree :=
  let roots := (ps.filter (fun p => !hasParentIn ps p)).map
    (fun p => PTree.node p [])
  let children := ps.filter (fun p => hasParentIn ps p)
  children.foldl (fun tree c => addNodeAux (ps.length + 1) (PTree.node c []) tree)
    roots

/-- `ProcessTree.event_apicall` (lines 1055-1067): record each distinct
process id once, first occurrence wins. -/
def ptree_event_apicall (seen : List PInfo) (p : PInfo) : List PInfo :=
  if seen.any (fun e => e.pid == p.pid) then seen else seen ++ [p]

/-- Does a pid occur anywhere in the forest, up to the given depth? -/
def forestHasPidAux : Nat → Nat → List PTree → Bool
  | 0, _, _ => false
  | fuel + 1, p, forest =>
    forest.any
      (fun t =>
        match t with
        | PTree.node i kids => i.pid == p || forestHasPidAux fuel p kids)

/-- The info dicts at the top level of a forest (the roots). -/
def rootInfos (forest : List PTree) : List PInfo :=
  forest.map (fun t => match t with | PTree.node i _ => i)

/-- A behavioural listener as the orchestrator drives it: its private
state type, current state, and per-call handler which may raise.  The
four concrete listeners of `BehaviorAnalysis.run` are instances of this
shape. -/
structure ListenerInst where
  σ : Type
  state : σ
  on_call : σ → Call → ProcInfo → Except String σ

/-- One `instance.event_apicall(call, process)` inside the `try` of
`BehaviorAnalysis.run` (lines 1117-1121): an exception is caught and
logged, leaving the listener as it was, and dispatch continues. -/
def stepListener (c : Call) (p : ProcInfo) (l : ListenerInst) : ListenerInst :=
  { l with
    state :=
      match l.on_call l.state c p with
      | Except.ok s' => s'
      | Except.error _ => l.state }

/-- The fused dispatch pass of `BehaviorAnalysis.run` (lines 1115-1121):
for every call, in stream order, dispatch to every listener in list
order. -/
def fusedPass (calls : List (Call × ProcInfo)) (ls : List ListenerInst) :
    List ListenerInst :=
  calls.foldl (fun acc cp => acc.map (stepListener cp.1 cp.2)) ls

/-- The same calls fed to a single listener alone. -/
def runListener (calls : List (Call × ProcInfo)) (l : ListenerInst) :
    ListenerInst :=
  calls.foldl (fun acc cp => stepListener cp.1 cp.2 acc) l

/-- Concrete formatting collaborators used for closed evaluations:
identity printable conversion, no pretty annotations. -/
def F0 : Formatters :=
  { convert_to_printable := fun s => s
    pretty_print_arg := fun _ _ _ _ => none
    pretty_print_retval := fun _ _ _ _ => none }

/-- A concrete decoded call row ("call A" of the duplicate-folding
example), repeat count 0. -/
def rowA : Row :=
  { timestamp := "t0", thread_id := 7, caller := 4096, parentcaller := 0,
    category := "system", api := "ApiA", repeated := 0, status := 1,
    returnval := Sum.inl 0, args := [("Name", "val")] }

/-- A concrete row that differs from `rowA` in its API name ("call B"). -/
def rowB : Row :=
  { rowA with api := "ApiB" }

/-- The raw argument values of the record obtained by: creating a lazy
reconstructor over two distinct calls, reading one record (which leaves
the second parsed and pending in `lastcall`), calling `begin_reporting`,
and reading the next record. -/
def secondReadRawValues : List (Option String) :=
  match (next F0 0 (begin_reporting
      (next F0 0 (initPState F0 0 false [rowA, rowB])).2)).1 with
  | none => []
  | some c => c.arguments.map (fun a => a.raw_value)

/-- A ControlService call record with a ControlCode argument whose
printable value is the string "1". -/
def controlCall : Call :=
  parseRow F0 false
    { rowA with api := "ControlService",
                args := [("ServiceName", "svc"), ("ControlCode", "1")] }

/-- A concrete owning process for listener evaluations. -/
def proc0 : ProcInfo :=
  { process_name := "sample.exe", process_id := 1, parent_id := 0 }

/-- Process set of the spec's process-tree example: pid 1 under the
unknown ppid 0, pid 2 under pid 1, pid 3 under the unknown ppid 99. -/
def pi1 : PInfo := { name := "p1", pid := 1, parent_id := 0 }

/-- Second process of the example: child of pid 1. -/
def pi2 : PInfo := { name := "p2", pid := 2, parent_id := 1 }

/-- Third process of the example: parent pid 99 not in the set. -/
def pi3 : PInfo := { name := "p3", pid := 3, parent_id := 99 }

/-- A process with pid 3 whose parent is pid 2. -/
def pi3c : PInfo := { name := "p3", pid := 3, parent_id := 2 }

/-- A per-call listener handler that counts calls and never raises. -/
def goodListener : ListenerInst :=
  { σ := Nat, state := 0, on_call := fun s _ _ => Except.ok (s + 1) }

/-- A per-call listener handler that always raises. -/
def badListener : ListenerInst :=
  { σ := Nat, state := 0, on_call := fun _ _ _ => Except.error "listener failure" }

/-- Characterisation of call equality: exactly the four compared
fields. -/
theorem compare_calls_eq_true_iff (a b : Call) :
    compare_calls a b = true ↔
      (a.api = b.api ∧ a.status = b.status ∧
       a.arguments = b.arguments ∧ a.ret = b.ret) := by
  simp [compare_calls, and_assoc]

/-- Call equality is reflexive. -/
theorem compare_calls_refl (a : Call) : compare_calls a a = true := by
  simp [compare_calls]

/-- Call equality is symmetric. -/
theorem compare_calls_comm (a b : Call) :
    compare_calls a b = compare_calls b a := by
  cases hab : compare_calls a b <;> cases hba : compare_calls b a
  · rfl
  · exfalso
    rcases (compare_calls_eq_true_iff b a).mp hba with ⟨x1, x2, x3, x4⟩
    have hc := (compare_calls_eq_true_iff a b).mpr
      ⟨x1.symm, x2.symm, x3.symm, x4.symm⟩
    rw [hab] at hc
    exact Bool.noConfusion hc
  · exfalso
    rcases (compare_calls_eq_true_iff a b).mp hab with ⟨x1, x2, x3, x4⟩
    have hc := (compare_calls_eq_true_iff b a).mpr
      ⟨x1.symm, x2.symm, x3.symm, x4.symm⟩
    rw [hba] at hc
    exact Bool.noConfusion hc
  · rfl

/-- Call equality ignores the repeat count, so an already-merged record
compares to the next call exactly as the original first record does. -/
theorem compare_calls_setRepeated (a b : Call) (n : Nat) :
    compare_calls { a with repeated := n } b = compare_calls a b :=
  rfl

/-- Folding step, equal case. -/
theorem mergeLoop_cons_eq (F : Formatters) (rm : Bool) (nc : Call)
    (r : Row) (rest : List Row)
    (h : compare_calls nc (parseRow F rm r) = true) :
    mergeLoop F rm nc (r :: rest) =
      mergeLoop F rm
        { nc with repeated := nc.repeated + (parseRow F rm r).repeated + 1 }
        rest := by
  simp [mergeLoop, h]

/-- Folding step, non-equal case: the differing call stays pending. -/
theorem mergeLoop_cons_ne (F : Formatters) (rm : Bool) (nc : Call)
    (r : Row) (rest : List Row)
    (h : compare_calls nc (parseRow F rm r) = false) :
    mergeLoop F rm nc (r :: rest) = (nc, some (parseRow F rm r), rest) := by
  simp [mergeLoop, h]

/-- The folding loop never grows the unread remainder: what is left
(pending call included) is at most what was there. -/
theorem mergeLoop_remainder_le (F : Formatters) (rm : Bool) :
    ∀ (l : List Row) (nc : Call),
      (mergeLoop F rm nc l).2.2.length +
        (if (mergeLoop F rm nc l).2.1.isSome then 1 else 0) ≤ l.length := by
  intro l
  induction l with
  | nil => intro nc; simp [mergeLoop]
  | cons r rest ih =>
    intro nc
    by_cases h : compare_calls nc (parseRow F rm r) = true
    · rw [mergeLoop_cons_eq F rm nc r rest h]
      exact le_trans (ih _) (by simp)
    · rw [mergeLoop_cons_ne F rm nc r rest (by simpa using h)]
      simp

/-- The folding loop only ever updates the repeat count of the
surviving record: every other field is the first record's. -/
theorem mergeLoop_fst_frame (F : Formatters) (rm : Bool) :
    ∀ (l : List Row) (nc : Call),
      (mergeLoop F rm nc l).1 =
        { nc with repeated := (mergeLoop F rm nc l).1.repeated } := by
  intro l
  induction l with
  | nil => intro nc; rfl
  | cons r rest ih =>
    intro nc
    by_cases h : compare_calls nc (parseRow F rm r) = true
    · rw [mergeLoop_cons_eq F rm nc r rest h]
      exact ih _
    · rw [mergeLoop_cons_ne F rm nc r rest (by simpa using h)]

/-- `cacheless_next` on an empty stream with nothing pending: clean
exhaustion after a reset. -/
theorem cacheless_next_empty (F : Formatters) (lim : Nat)
    (raw : List Row) (rm : Bool) (k i : Nat) :
    cacheless_next F lim ⟨raw, [], none, rm, k, i⟩ =
      (none, ⟨raw, raw, none, rm, 0, 0⟩) :=
  rfl

/-- `cacheless_next` with a pending call and the ceiling not hit:
fold duplicates out of the stream, assign the id. -/
theorem cacheless_next_ready (F : Formatters) (lim : Nat)
    (raw stream : List Row) (c0 : Call) (rm : Bool) (k i : Nat)
    (hlim : ¬(lim ≠ 0 ∧ k + 1 > lim)) :
    cacheless_next F lim ⟨raw, stream, some c0, rm, k, i⟩ =
      (some { (mergeLoop F rm c0 stream).1 with id := some i },
       ⟨raw, (mergeLoop F rm c0 stream).2.2, (mergeLoop F rm c0 stream).2.1,
        rm, k + 1, i + 1⟩) := by
  simp [cacheless_next, wait_for_lastcall, hlim]

/-- `cacheless_next` with nothing pending and a non-empty stream and the
ceiling not hit: pull and parse the head, then as above. -/
theorem cacheless_next_pull (F : Formatters) (lim : Nat)
    (raw : List Row) (r : Row) (rest : List Row) (rm : Bool) (k i : Nat)
    (hlim : ¬(lim ≠ 0 ∧ k + 1 > lim)) :
    cacheless_next F lim ⟨raw, r :: rest, none, rm, k, i⟩ =
      (some { (mergeLoop F rm (parseRow F rm r) rest).1 with id := some i },
       ⟨raw, (mergeLoop F rm (parseRow F rm r) rest).2.2,
        (mergeLoop F rm (parseRow F rm r) rest).2.1, rm, k + 1, i + 1⟩) := by
  simp [cacheless_next, wait_for_lastcall, hlim]

/-- When the ceiling is hit, `cacheless_next` resets and stops whatever
is pending. -/
theorem cacheless_next_ceiling (F : Formatters) (lim : Nat) (s : LogState)
    (h0 : lim ≠ 0) (h : s.api_count + 1 > lim) :
    cacheless_next F lim s = (none, resetState s) := by
  obtain ⟨raw, stream, lastcall, rm, k, i⟩ := s
  simp only [LogState.api_count] at h
  cases lastcall with
  | some c0 => simp [cacheless_next, wait_for_lastcall, resetState, h0, h]
  | none =>
    cases stream with
    | nil => rfl
    | cons r rest => simp [cacheless_next, wait_for_lastcall, resetState, h0, h]

/-- A `StopIteration` result of `cacheless_next` always leaves the
state reset. -/
theorem cacheless_next_none_reset (F : Formatters) (lim : Nat)
    (s : LogState) (s' : LogState)
    (h : cacheless_next F lim s = (none, s')) : s' = resetState s := by
  obtain ⟨raw, stream, lastcall, rm, k, i⟩ := s
  by_cases hb : lim ≠ 0 ∧ k + 1 > lim
  · rw [cacheless_next_ceiling F lim _ hb.1 hb.2] at h
    exact (Prod.mk.injEq _ _ _ _ ▸ h).2.symm
  · cases lastcall with
    | some c0 => rw [cacheless_next_ready F lim raw stream c0 rm k i hb] at h; cases h
    | none =>
      cases stream with
      | nil =>
        rw [cacheless_next_empty] at h
        simpa [resetState] using (Prod.mk.injEq _ _ _ _ ▸ h).2.symm
      | cons r rest =>
        rw [cacheless_next_pull F lim raw r rest rm k i hb] at h; cases h

/-- A produced record strictly shrinks the unread remainder and
advances both counters by one; the log content and the reporting mode
are untouched, and the record carries the pre-increment sequence id. -/
theorem cacheless_next_some_inv (F : Formatters) (lim : Nat)
    (s : LogState) (c : Call) (s' : LogState)
    (h : cacheless_next F lim s = (some c, s')) :
    lsMeasure s' < lsMeasure s ∧ s'.raw = s.raw ∧
      s'.reporting_mode = s.reporting_mode ∧
      s'.api_count = s.api_count + 1 ∧ s'.call_id = s.call_id + 1 ∧
      c.id = some s.call_id := by
  obtain ⟨raw, stream, lastcall, rm, k, i⟩ := s
  by_cases hb : lim ≠ 0 ∧ k + 1 > lim
  · rw [cacheless_next_ceiling F lim _ hb.1 hb.2] at h; cases h
  · cases lastcall with
    | some c0 =>
      rw [cacheless_next_ready F lim raw stream c0 rm k i hb] at h
      obtain ⟨h1, h2⟩ := Prod.mk.injEq _ _ _ _ ▸ h
      subst h2
      refine ⟨?_, rfl, rfl, rfl, rfl, ?_⟩
      · have hle := mergeLoop_remainder_le F rm stream c0
        simp [lsMeasure] at hle ⊢
        omega
      · simp [← Option.some.inj h1]
    | none =>
      cases stream with
      | nil => rw [cacheless_next_empty] at h; cases h
      | cons r rest =>
        rw [cacheless_next_pull F lim raw r rest rm k i hb] at h
        obtain ⟨h1, h2⟩ := Prod.mk.injEq _ _ _ _ ▸ h
        subst h2
        refine ⟨?_, rfl, rfl, rfl, rfl, ?_⟩
        · have hle := mergeLoop_remainder_le F rm rest (parseRow F rm r)
          simp [lsMeasure] at hle ⊢
          omega
        · simp [← Option.some.inj h1]

/-- With a non-zero limit not yet reached, the ceiling plays no role:
the step equals the zero-limit (unlimited) step. -/
theorem cacheless_next_below_limit (F : Formatters) (lim : Nat)
    (s : LogState) (hk : s.api_count + 1 ≤ lim) :
    cacheless_next F lim s = cacheless_next F 0 s := by
  obtain ⟨raw, stream, lastcall, rm, k, i⟩ := s
  simp only [LogState.api_count] at hk
  have hb : ¬(lim ≠ 0 ∧ k + 1 > lim) := by omega
  have hb0 : ¬((0 : Nat) ≠ 0 ∧ k + 1 > 0) := by omega
  cases lastcall with
  | some c0 =>
    rw [cacheless_next_ready F lim raw stream c0 rm k i hb,
        cacheless_next_ready F 0 raw stream c0 rm k i hb0]
  | none =>
    cases stream with
    | nil => rfl
    | cons r rest =>
      rw [cacheless_next_pull F lim raw r rest rm k i hb,
          cacheless_next_pull F 0 raw r rest rm k i hb0]

/-- Unfolding: zero fuel. -/
theorem drainAux_zero (F : Formatters) (lim : Nat) (s : LogState) :
    drainAux F lim 0 s = ([], s) :=
  rfl

/-- Unfolding: a step that observes exhaustion ends the iteration. -/
theorem drainAux_succ_none (F : Formatters) (lim fuel : Nat)
    (s s' : LogState) (h : cacheless_next F lim s = (none, s')) :
    drainAux F lim (fuel + 1) s = ([], s') := by
  simp [drainAux, h]

/-- Unfolding: a produced record is collected and iteration continues. -/
theorem drainAux_succ_some (F : Formatters) (lim fuel : Nat)
    (s s' : LogState) (c : Call)
    (h : cacheless_next F lim s = (some c, s')) :
    drainAux F lim (fuel + 1) s =
      (c :: (drainAux F lim fuel s').1, (drainAux F lim fuel s').2) := by
  simp [drainAux, h]

/-- Reset states agree whenever the log content and the reporting mode
agree. -/
theorem resetState_congr (s s' : LogState) (h1 : s'.raw = s.raw)
    (h2 : s'.reporting_mode = s.reporting_mode) :
    resetState s' = resetState s := by
  obtain ⟨raw, stream, lc, rm, k, i⟩ := s
  obtain ⟨raw', stream', lc', rm', k', i'⟩ := s'
  simp_all [resetState]

/-- Iterating to exhaustion always leaves the state reset (the final
`StopIteration` path of `cacheless_next` calls `reset`). -/
theorem drainAux_final (F : Formatters) (lim : Nat) :
    ∀ (fuel : Nat) (s : LogState), lsMeasure s < fuel →
      (drainAux F lim fuel s).2 = resetState s := by
  intro fuel
  induction fuel with
  | zero => intro s h; omega
  | succ f ih =>
    intro s hs
    cases h : cacheless_next F lim s with
    | mk o s' =>
      cases o with
      | none =>
        rw [drainAux_succ_none F lim f s s' h]
        exact cacheless_next_none_reset F lim s s' h
      | some c =>
        have hi := cacheless_next_some_inv F lim s c s' h
        rw [drainAux_succ_some F lim f s s' c h]
        have h2 := ih s' (by omega)
        calc (c :: (drainAux F lim f s').1, (drainAux F lim f s').2).2
            = (drainAux F lim f s').2 := rfl
          _ = resetState s' := h2
          _ = resetState s := resetState_congr s s' hi.2.1 hi.2.2.1

/-- Measure of a fresh state: the full stream, nothing pending. -/
theorem lsMeasure_initState (raw : List Row) :
    lsMeasure (initState raw) = raw.length := by
  simp [lsMeasure, initState]

/-- With a non-zero ceiling, the limited iteration produces exactly the
first `limit - api_count` records of the unlimited iteration. -/
theorem drainAux_limit_take (F : Formatters) (lim : Nat) (hlim : lim ≠ 0) :
    ∀ (fuel : Nat) (s : LogState), lsMeasure s < fuel →
      (drainAux F lim fuel s).1 =
        ((drainAux F 0 fuel s).1).take (lim - s.api_count) := by
  intro fuel
  induction fuel with
  | zero => intro s h; omega
  | succ f ih =>
    intro s hs
    by_cases hk : s.api_count + 1 ≤ lim
    · have hstep := cacheless_next_below_limit F lim s hk
      cases h0 : cacheless_next F 0 s with
      | mk o s' =>
        cases o with
        | none =>
          rw [drainAux_succ_none F lim f s s' (hstep.trans h0),
              drainAux_succ_none F 0 f s s' h0]
          simp
        | some c =>
          have hi := cacheless_next_some_inv F 0 s c s' h0
          rw [drainAux_succ_some F lim f s s' c (hstep.trans h0),
              drainAux_succ_some F 0 f s s' c h0]
          have hlt : lsMeasure s' < f := by omega
          have hrec := ih s' hlt
          have hsub : lim - s'.api_count = lim - s.api_count - 1 := by omega
          have hpos : lim - s.api_count = (lim - s.api_count - 1) + 1 := by
            omega
          calc (c :: (drainAux F lim f s').1, (drainAux F lim f s').2).1
              = c :: (drainAux F lim f s').1 := rfl
            _ = c :: ((drainAux F 0 f s').1).take (lim - s.api_count - 1) := by
                rw [hrec, hsub]
            _ = ((c :: (drainAux F 0 f s').1).take (lim - s.api_count)) := by
                conv_rhs => rw [hpos]
                rw [List.take_succ_cons]
    · have hk' : s.api_count + 1 > lim := by omega
      rw [drainAux_succ_none F lim f s (resetState s)
            (cacheless_next_ceiling F lim s hlim hk')]
      have h0 : lim - s.api_count = 0 := by omega
      rw [h0]
      simp

/-- C2 (amended): with a non-zero call-count limit N, the reconstructor
produces exactly the first N records of the fully folded unlimited
sequence — so exactly N records whenever the post-fold record count is
at least N, and fewer otherwise — and then signals clean exhaustion
(the `StopIteration` path, modelled by the `none` step result; no other
termination path exists in `cacheless_next`). -/
theorem c2_amended_theorem (F : Formatters) (lim : Nat) (raw : List Row)
    (hlim : lim ≠ 0) :
    drainCalls F lim raw = (drainCalls F 0 raw).take lim := by
  have h := drainAux_limit_take F lim hlim (raw.length + 1) (initState raw)
    (by rw [lsMeasure_initState]; omega)
  simpa [drainCalls, initState] using h

/-- C2 witness: the amended theorem at limit 1 over two distinct
calls. -/
theorem c2_witness :
    (1 : Nat) ≠ 0 ∧
      drainCalls F0 1 [rowA, rowB] = (drainCalls F0 0 [rowA, rowB]).take 1 :=
  ⟨by decide, c2_amended_theorem F0 1 [rowA, rowB] (by decide)⟩

/-- A zero configured limit makes the ceiling test of `cacheless_next`
unreachable: the step is the ceiling-free one. -/
theorem cacheless_next_zero_unbounded (F : Formatters) (s : LogState) :
    cacheless_next F 0 s = cacheless_next_unbounded F s := by
  obtain ⟨raw, stream, lc, rm, k, i⟩ := s
  cases lc with
  | some c0 =>
    simp [cacheless_next, cacheless_next_unbounded, wait_for_lastcall]
  | none =>
    cases stream with
    | nil => rfl
    | cons r rest =>
      simp [cacheless_next, cacheless_next_unbounded, wait_for_lastcall]

/-- C6 (amended): a zero call-count limit disables the ceiling — the
reconstructor step coincides with the ceiling-free step, so the stream
is never truncated — but a zero size limit does not disable the size
check: the collector skips exactly the files whose size exceeds the
configured value, hence with limit zero every non-empty file. -/
theorem c6_amended_theorem :
    (∀ (F : Formatters) (s : LogState),
       cacheless_next F 0 s = cacheless_next_unbounded F s) ∧
    (∀ e : DirEntry, sizeSkip 0 e = decide (0 < e.size)) := by
  constructor
  · exact cacheless_next_zero_unbounded
  · intro e; rfl

/-- C10: when adjacent duplicates are folded, the surviving record
keeps every field of the earliest call — timestamp, thread id, caller
and parent-caller addresses, category, API name, status, arguments,
return value and both annotations — and only its repeat count is
accumulated (first conjunct: the folded record is the first record
with only `repeated` replaced); the later calls' field values are
discarded; and whenever a record is produced, the sequence id assigned
to the merged record as a whole is the current counter (second
conjunct). -/
theorem c10_theorem :
    (∀ (F : Formatters) (rm : Bool) (l : List Row) (nc : Call),
       (mergeLoop F rm nc l).1 =
         { nc with repeated := (mergeLoop F rm nc l).1.repeated }) ∧
    (∀ (F : Formatters) (lim : Nat) (s : LogState),
       Option.all (fun c => c.id == some s.call_id)
         (cacheless_next F lim s).1 = true) := by
  constructor
  · intro F rm l nc
    exact mergeLoop_fst_frame F rm l nc
  · intro F lim s
    cases h : cacheless_next F lim s with
    | mk o s' =>
      cases o with
      | none => simp [h]
      | some c =>
        have hi := cacheless_next_some_inv F lim s c s' h
        simp [h, Option.all, hi.2.2.2.2.2]

/-- C1 counterexample: on the decoded stream A, A, B, A (all repeat
counts 0, the first two A's adjacent-equal), the reconstructor yields
repeat counts [1, 0, 0] — the merged record accumulates 0 + 0 + 1 = 1 —
and not the [2, 0, 0] the claim's example asserts. -/
theorem c1_counterexample :
    repeatsOf (drainCalls F0 0 [rowA, rowA, rowB, rowA]) = [1, 0, 0] ∧
    repeatsOf (drainCalls F0 0 [rowA, rowA, rowB, rowA]) ≠ [2, 0, 0] := by
  decide

/-- C2 counterexample: with call-count limit N = 2 and a raw stream of
M = 3 call records that are all adjacent-equal, the reconstructor folds
them into a single record, so iteration produces 1 record, not exactly
N = 2 as the claim states. -/
theorem c2_counterexample :
    (drainCalls F0 2 [rowA, rowA, rowA]).length = 1 ∧
    (drainCalls F0 2 [rowA, rowA, rowA]).length ≠ 2 := by
  decide

/-- C4 counterexample: in lazy mode, read one record of a two-record
stream (leaving the second record parsed before the transition and
pending in `lastcall`), invoke `begin_reporting`, then read the next
record: that record still retains a raw argument value. -/
theorem c4_counterexample :
    secondReadRawValues = [some "val"] ∧ secondReadRawValues ≠ [none] := by
  decide

/-- C6 counterexample: with a configured size limit of zero, a 5-byte
log file is skipped by the Process Collector's size test (`st_size > 0`
holds), contradicting the claim that a zero size limit disables the
check. -/
theorem c6_counterexample :
    sizeSkip 0 { isDir := false, size := 5 } = true ∧
    keptEntries 0 [{ isDir := false, size := 5 }] = [] := by
  decide

/-- C8 counterexample: with the same process set but recorded in the
order pid 1 (root), pid 3 (child of pid 2), pid 2 (child of pid 1),
`add_node` processes pid 3 before its parent pid 2 exists in the tree,
so pid 3 is silently dropped: it is attached nowhere at any depth,
contradicting the claim's general clause. -/
theorem c8_counterexample :
    ptreeRun [pi1, pi3c, pi2] = [PTree.node pi1 [PTree.node pi2 []]] ∧
    forestHasPidAux 4 3 (ptreeRun [pi1, pi3c, pi2]) = false := by
  exact ⟨rfl, rfl⟩

/-- C5: the reconstructor's anomaly callback `log_anomaly` does yield a
record of category "anomaly" with empty API name, but that record has
no `arguments` key, so `Anomaly.event_apicall` raises `KeyError` on it
(caught and logged by the orchestrator) and appends no entry — while a
record of any other category passes through with no entry, as claimed.
The producer and the consumer of anomaly records disagree on the record
shape: the listener expects `arguments` entries named Subcategory /
FunctionName / Message, `log_anomaly` stores them as top-level keys. -/
theorem c5_code_bug_theorem :
    (∀ subcategory tid funcname msg : String,
       (log_anomaly subcategory tid funcname msg).category = "anomaly" ∧
       (log_anomaly subcategory tid funcname msg).api = "") ∧
    anomaly_event_apicall
      (CallDict.anomalyRec (log_anomaly "unhook" "7" "fn" "msg")) proc0 [] =
      Except.error "KeyError: arguments" ∧
    anomaly_event_apicall (CallDict.parsed (parseRow F0 false rowA)) proc0 [] =
      Except.ok [] := by
  exact ⟨fun a b c d => ⟨rfl, rfl⟩, rfl, rfl⟩

/-- C7: `_get_service_action` receives the ControlCode as the printable
string of `_parse`, but its `codes` dict has int keys and the `>= 128`
comparison is Python 2 mixed-type (any str compares greater than any
int), so the result is "user" for every string control code — in
particular "user", not "stop", for ControlCode "1" — while the claimed
mapping only fires for the int keys the call site never supplies. -/
theorem c7_code_bug_theorem :
    (∀ s : String, get_service_action (PyVal.str s) = "user") ∧
    enhancedServiceAction controlCall = some "user" ∧
    get_service_action (PyVal.int 1) = "stop" := by
  exact ⟨fun s => rfl, by decide, by decide⟩

/-- C1 (amended): two adjacent calls are merged into one record iff
their API name, success flag, argument list and return value are all
equal (first and second/third conjuncts), the surviving record's repeat
count accumulating both calls' repeat counts plus one; non-adjacent
duplicates are never merged, and for input calls A, A, B, A the
reconstructed sequence is [A(repeat = 2r+1 where r is A's own repeat
count — 1 when r = 0), B, A(repeat = r)] (fourth conjunct). -/
theorem c1_amended_theorem (F : Formatters) :
    (∀ a b : Call, compare_calls a b = true ↔
       (a.api = b.api ∧ a.status = b.status ∧
        a.arguments = b.arguments ∧ a.ret = b.ret)) ∧
    (∀ r1 r2 : Row,
       compare_calls (parseRow F false r1) (parseRow F false r2) = true →
       drainCalls F 0 [r1, r2] =
         [{ parseRow F false r1 with
              repeated := (parseRow F false r1).repeated +
                (parseRow F false r2).repeated + 1,
              id := some 0 }]) ∧
    (∀ r1 r2 : Row,
       compare_calls (parseRow F false r1) (parseRow F false r2) = false →
       drainCalls F 0 [r1, r2] =
         [{ parseRow F false r1 with id := some 0 },
          { parseRow F false r2 with id := some 1 }]) ∧
    (∀ ra rb : Row,
       compare_calls (parseRow F false ra) (parseRow F false rb) = false →
       drainCalls F 0 [ra, ra, rb, ra] =
         [{ parseRow F false ra with
              repeated := (parseRow F false ra).repeated +
                (parseRow F false ra).repeated + 1,
              id := some 0 },
          { parseRow F false rb with id := some 1 },
          { parseRow F false ra with id := some 2 }]) := by
  refine ⟨compare_calls_eq_true_iff, ?_, ?_, ?_⟩
  · intro r1 r2 h
    have hm : mergeLoop F false (parseRow F false r1) [r2] =
        ({ parseRow F false r1 with
             repeated := (parseRow F false r1).repeated +
               (parseRow F false r2).repeated + 1 }, none, []) := by
      rw [mergeLoop_cons_eq F false (parseRow F false r1) r2 [] h]
      try rfl
    have hstep1 : cacheless_next F 0 ⟨[r1, r2], [r1, r2], none, false, 0, 0⟩ =
        (some { parseRow F false r1 with
                  repeated := (parseRow F false r1).repeated +
                    (parseRow F false r2).repeated + 1,
                  id := some 0 },
         ⟨[r1, r2], [], none, false, 1, 1⟩) := by
      rw [cacheless_next_pull F 0 [r1, r2] r1 [r2] false 0 0 (by simp), hm]
      try rfl
    have hstep2 : cacheless_next F 0 ⟨[r1, r2], [], none, false, 1, 1⟩ =
        (none, ⟨[r1, r2], [r1, r2], none, false, 0, 0⟩) :=
      cacheless_next_empty F 0 [r1, r2] false 1 1
    show (drainAux F 0 (1 + 1 + 1) ⟨[r1, r2], [r1, r2], none, false, 0, 0⟩).1 = _
    rw [drainAux_succ_some F 0 (1 + 1) _ _ _ hstep1,
        drainAux_succ_none F 0 1 _ _ hstep2]
    try rfl
  · intro r1 r2 h
    have hm : mergeLoop F false (parseRow F false r1) [r2] =
        (parseRow F false r1, some (parseRow F false r2), []) :=
      mergeLoop_cons_ne F false (parseRow F false r1) r2 [] h
    have hstep1 : cacheless_next F 0 ⟨[r1, r2], [r1, r2], none, false, 0, 0⟩ =
        (some { parseRow F false r1 with id := some 0 },
         ⟨[r1, r2], [], some (parseRow F false r2), false, 1, 1⟩) := by
      rw [cacheless_next_pull F 0 [r1, r2] r1 [r2] false 0 0 (by simp), hm]
      try rfl
    have hstep2 : cacheless_next F 0
        ⟨[r1, r2], [], some (parseRow F false r2), false, 1, 1⟩ =
        (some { parseRow F false r2 with id := some 1 },
         ⟨[r1, r2], [], none, false, 1 + 1, 1 + 1⟩) := by
      rw [cacheless_next_ready F 0 [r1, r2] [] (parseRow F false r2) false 1 1
        (by simp)]
      try rfl
    have hstep3 : cacheless_next F 0
        ⟨[r1, r2], [], none, false, 1 + 1, 1 + 1⟩ =
        (none, ⟨[r1, r2], [r1, r2], none, false, 0, 0⟩) :=
      cacheless_next_empty F 0 [r1, r2] false (1 + 1) (1 + 1)
    show (drainAux F 0 (1 + 1 + 1) ⟨[r1, r2], [r1, r2], none, false, 0, 0⟩).1 = _
    rw [drainAux_succ_some F 0 (1 + 1) _ _ _ hstep1,
        drainAux_succ_some F 0 1 _ _ _ hstep2,
        drainAux_succ_none F 0 0 _ _ hstep3]
    try rfl
  · intro ra rb h
    have haa : compare_calls (parseRow F false ra) (parseRow F false ra) = true :=
      compare_calls_refl _
    have hm1 : mergeLoop F false (parseRow F false ra) [ra, rb, ra] =
        ({ parseRow F false ra with
             repeated := (parseRow F false ra).repeated +
               (parseRow F false ra).repeated + 1 },
         some (parseRow F false rb), [ra]) := by
      rw [mergeLoop_cons_eq F false (parseRow F false ra) ra [rb, ra] haa,
          mergeLoop_cons_ne F false _ rb [ra]
            (by rw [compare_calls_setRepeated]; exact h)]
      try rfl
    have hstep1 : cacheless_next F 0
        ⟨[ra, ra, rb, ra], [ra, ra, rb, ra], none, false, 0, 0⟩ =
        (some { parseRow F false ra with
                  repeated := (parseRow F false ra).repeated +
                    (parseRow F false ra).repeated + 1,
                  id := some 0 },
         ⟨[ra, ra, rb, ra], [ra], some (parseRow F false rb), false, 1, 1⟩) := by
      rw [cacheless_next_pull F 0 [ra, ra, rb, ra] ra [ra, rb, ra] false 0 0
        (by simp), hm1]
      try rfl
    have hm2 : mergeLoop F false (parseRow F false rb) [ra] =
        (parseRow F false rb, some (parseRow F false ra), []) :=
      mergeLoop_cons_ne F false (parseRow F false rb) ra []
        (by rw [compare_calls_comm]; exact h)
    have hstep2 : cacheless_next F 0
        ⟨[ra, ra, rb, ra], [ra], some (parseRow F false rb), false, 1, 1⟩ =
        (some { parseRow F false rb with id := some 1 },
         ⟨[ra, ra, rb, ra], [], some (parseRow F false ra), false,
          1 + 1, 1 + 1⟩) := by
      rw [cacheless_next_ready F 0 [ra, ra, rb, ra] [ra] (parseRow F false rb)
        false 1 1 (by simp), hm2]
      try rfl
    have hstep3 : cacheless_next F 0
        ⟨[ra, ra, rb, ra], [], some (parseRow F false ra), false,
         1 + 1, 1 + 1⟩ =
        (some { parseRow F false ra with id := some 2 },
         ⟨[ra, ra, rb, ra], [], none, false, 1 + 1 + 1, 1 + 1 + 1⟩) := by
      rw [cacheless_next_ready F 0 [ra, ra, rb, ra] [] (parseRow F false ra)
        false (1 + 1) (1 + 1) (by simp)]
      try rfl
    have hstep4 : cacheless_next F 0
        ⟨[ra, ra, rb, ra], [], none, false, 1 + 1 + 1, 1 + 1 + 1⟩ =
        (none, ⟨[ra, ra, rb, ra], [ra, ra, rb, ra], none, false, 0, 0⟩) :=
      cacheless_next_empty F 0 [ra, ra, rb, ra] false (1 + 1 + 1) (1 + 1 + 1)
    show (drainAux F 0 (1 + 1 + 1 + 1 + 1)
      ⟨[ra, ra, rb, ra], [ra, ra, rb, ra], none, false, 0, 0⟩).1 = _
    rw [drainAux_succ_some F 0 (1 + 1 + 1 + 1) _ _ _ hstep1,
        drainAux_succ_some F 0 (1 + 1 + 1) _ _ _ hstep2,
        drainAux_succ_some F 0 (1 + 1) _ _ _ hstep3,
        drainAux_succ_none F 0 1 _ _ hstep4]
    try rfl

/-- C1 witness: the amended example at the concrete calls A (repeat 0)
and B, which compare unequal; the fold yields repeat counts 1, 0, 0 and
ids 0, 1, 2. -/
theorem c1_witness :
    compare_calls (parseRow F0 false rowA) (parseRow F0 false rowB) = false ∧
    drainCalls F0 0 [rowA, rowA, rowB, rowA] =
      [{ parseRow F0 false rowA with
           repeated := (parseRow F0 false rowA).repeated +
             (parseRow F0 false rowA).repeated + 1,
           id := some 0 },
       { parseRow F0 false rowB with id := some 1 },
       { parseRow F0 false rowA with id := some 2 }] :=
  ⟨by decide, (c1_amended_theorem F0).2.2.2 rowA rowB (by decide)⟩

/-- The fused dispatch is equivalent to running every listener alone on
the same call stream: each `event_apicall` sits in its own `try`, so no
listener's behaviour can influence another's input or state. -/
theorem fusedPass_eq_map (calls : List (Call × ProcInfo)) :
    ∀ ls : List ListenerInst, fusedPass calls ls = ls.map (runListener calls) := by
  induction calls with
  | nil =>
    intro ls
    show ls = List.map (runListener []) ls
    rw [show runListener ([] : List (Call × ProcInfo)) = fun l => l from rfl]
    simp
  | cons cp cps ih =>
    intro ls
    have h1 : fusedPass (cp :: cps) ls =
        fusedPass cps (ls.map (stepListener cp.1 cp.2)) := rfl
    rw [h1, ih, List.map_map]
    rfl

/-- A handler that always raises leaves its listener unchanged on every
dispatched call. -/
theorem stepListener_bad (bad : ListenerInst)
    (hbad : ∀ (s : bad.σ) (c : Call) (p : ProcInfo),
      ∃ e, bad.on_call s c p = Except.error e)
    (c : Call) (p : ProcInfo) : stepListener c p bad = bad := by
  obtain ⟨σ, st, f⟩ := bad
  obtain ⟨e, he⟩ := hbad st c p
  have he' : f st c p = Except.error e := he
  simp [stepListener, he']

/-- A handler that always raises leaves its listener unchanged across a
whole run. -/
theorem runListener_bad (calls : List (Call × ProcInfo)) (bad : ListenerInst)
    (hbad : ∀ (s : bad.σ) (c : Call) (p : ProcInfo),
      ∃ e, bad.on_call s c p = Except.error e) :
    runListener calls bad = bad := by
  induction calls with
  | nil => rfl
  | cons cp cps ih =>
    have h1 : runListener (cp :: cps) bad =
        runListener cps (stepListener cp.1 cp.2 bad) := rfl
    rw [h1, stepListener_bad bad hbad cp.1 cp.2, ih]

/-- C9: a listener whose per-call handler always raises is caught on
every call: the fused pass over the listener list with the failing
listener inserted anywhere equals the fused pass without it on every
other position, with the failing listener itself left untouched — so
dispatch of each call proceeds to the remaining listeners and to all
subsequent calls, and the other listeners' results are identical to a
run without the failing listener. -/
theorem c9_theorem (calls : List (Call × ProcInfo))
    (pre post : List ListenerInst) (bad : ListenerInst)
    (hbad : ∀ (s : bad.σ) (c : Call) (p : ProcInfo),
      ∃ e, bad.on_call s c p = Except.error e) :
    fusedPass calls (pre ++ bad :: post) =
      fusedPass calls pre ++ bad :: fusedPass calls post ∧
    fusedPass calls (pre ++ post) =
      fusedPass calls pre ++ fusedPass calls post := by
  constructor
  · simp only [fusedPass_eq_map, List.map_append, List.map_cons]
    rw [runListener_bad calls bad hbad]
  · simp only [fusedPass_eq_map, List.map_append]

/-- C9 witness: a counting listener next to an always-failing listener
over a one-call stream. -/
theorem c9_witness :
    fusedPass [(parseRow F0 false rowA, proc0)]
        ([goodListener] ++ badListener :: []) =
      fusedPass [(parseRow F0 false rowA, proc0)] [goodListener] ++
        badListener :: fusedPass [(parseRow F0 false rowA, proc0)] [] ∧
    fusedPass [(parseRow F0 false rowA, proc0)] ([goodListener] ++ []) =
      fusedPass [(parseRow F0 false rowA, proc0)] [goodListener] ++
        fusedPass [(parseRow F0 false rowA, proc0)] [] :=
  c9_theorem [(parseRow F0 false rowA, proc0)] [goodListener] [] badListener
    (fun _ _ _ => ⟨"listener failure", rfl⟩)

/-- Unfolding: a `next` step that observes exhaustion ends the read. -/
theorem readAllAux_succ_none (F : Formatters) (lim fuel : Nat)
    (s s' : PState) (h : next F lim s = (none, s')) :
    readAllAux F lim (fuel + 1) s = ([], s') := by
  simp [readAllAux, h]

/-- Unfolding: a produced record is collected and the read continues. -/
theorem readAllAux_succ_some (F : Formatters) (lim fuel : Nat)
    (s s' : PState) (c : Call) (h : next F lim s = (some c, s')) :
    readAllAux F lim (fuel + 1) s =
      (c :: (readAllAux F lim fuel s').1, (readAllAux F lim fuel s').2) := by
  simp [readAllAux, h]

/-- In lazy mode, `next` delegates to `cacheless_next`. -/
theorem next_lazy (F : Formatters) (lim : Nat) (s : PState)
    (h : s.ram_boost = false) :
    next F lim s = ((cacheless_next F lim s.log).1,
      { s with log := (cacheless_next F lim s.log).2 }) := by
  simp [next, h]

/-- In eager mode at the sentinel, `next` resets and stops. -/
theorem next_eager_none (F : Formatters) (lim : Nat) (s : PState)
    (h : s.ram_boost = true) (hc : s.api_call_cache[s.api_pointer]? = none) :
    next F lim s = (none, reset s) := by
  simp [next, h, hc]

/-- In eager mode before the sentinel, `next` returns the cached record
and advances the cursor. -/
theorem next_eager_some (F : Formatters) (lim : Nat) (s : PState) (c : Call)
    (h : s.ram_boost = true) (hc : s.api_call_cache[s.api_pointer]? = some c) :
    next F lim s = (some c, { s with api_pointer := s.api_pointer + 1 }) := by
  simp [next, h, hc]

/-- A lazy-mode full read is the lazy drain of the log state, the
surrounding `PState` unchanged apart from the log. -/
theorem readAllAux_lazy (F : Formatters) (lim : Nat) :
    ∀ (fuel : Nat) (s : PState), s.ram_boost = false →
      readAllAux F lim fuel s =
        ((drainAux F lim fuel s.log).1,
         { s with log := (drainAux F lim fuel s.log).2 }) := by
  intro fuel
  induction fuel with
  | zero =>
    intro s _
    rfl
  | succ f ih =>
    intro s hram
    cases hc : cacheless_next F lim s.log with
    | mk o l' =>
      cases o with
      | none =>
        have hnext : next F lim s = (none, { s with log := l' }) := by
          rw [next_lazy F lim s hram, hc]
        rw [readAllAux_succ_none F lim f s _ hnext,
            drainAux_succ_none F lim f s.log l' hc]
      | some c =>
        have hnext : next F lim s = (some c, { s with log := l' }) := by
          rw [next_lazy F lim s hram, hc]
        rw [readAllAux_succ_some F lim f s _ c hnext,
            drainAux_succ_some F lim f s.log l' c hc,
            ih { s with log := l' } (by simp [hram])]

/-- An eager-mode full read returns the cache from the cursor on and
leaves the state reset. -/
theorem readAllAux_eager (F : Formatters) (lim : Nat) :
    ∀ (fuel : Nat) (s : PState), s.ram_boost = true →
      s.api_call_cache.length - s.api_pointer < fuel →
      readAllAux F lim fuel s =
        (s.api_call_cache.drop s.api_pointer, reset s) := by
  intro fuel
  induction fuel with
  | zero => intro s _ hm; omega
  | succ f ih =>
    intro s hram hm
    cases hc : s.api_call_cache[s.api_pointer]? with
    | none =>
      have hlen : s.api_call_cache.length ≤ s.api_pointer :=
        List.getElem?_eq_none_iff.mp hc
      rw [readAllAux_succ_none F lim f s _ (next_eager_none F lim s hram hc),
          List.drop_eq_nil_of_le hlen]
    | some c =>
      obtain ⟨hlt, he⟩ := List.getElem?_eq_some.mp hc
      rw [readAllAux_succ_some F lim f s _ c (next_eager_some F lim s c hram hc),
          ih { s with api_pointer := s.api_pointer + 1 } (by simp [hram])
            (by simp; omega)]
      rw [List.drop_eq_getElem_cons hlt, he]
      rfl

/-- A full lazy read from a fresh state: the drained records, and the
state left exactly fresh again. -/
theorem readAll_lazy_init (F : Formatters) (lim : Nat) (raw : List Row) :
    readAllFrom F lim ⟨false, initState raw, [], 0⟩ =
      ((drainAux F lim (raw.length + 1) (initState raw)).1,
       ⟨false, initState raw, [], 0⟩) := by
  have h2 := drainAux_final F lim (raw.length + 1) (initState raw)
    (by rw [lsMeasure_initState]; omega)
  calc readAllFrom F lim ⟨false, initState raw, [], 0⟩
      = readAllAux F lim (raw.length + 1) ⟨false, initState raw, [], 0⟩ := rfl
    _ = ((drainAux F lim (raw.length + 1) (initState raw)).1,
         ⟨false, (drainAux F lim (raw.length + 1) (initState raw)).2, [], 0⟩) :=
        readAllAux_lazy F lim (raw.length + 1) ⟨false, initState raw, [], 0⟩ rfl
    _ = ((drainAux F lim (raw.length + 1) (initState raw)).1,
         ⟨false, initState raw, [], 0⟩) := by
        rw [h2]
        rfl

/-- A full eager read from cursor zero: the whole cache, and the state
reset. -/
theorem readAll_eager_state (F : Formatters) (lim : Nat) (L : LogState)
    (cache : List Call) :
    readAllFrom F lim ⟨true, L, cache, 0⟩ =
      (cache, ⟨true, resetState L, cache, 0⟩) := by
  calc readAllFrom F lim ⟨true, L, cache, 0⟩
      = readAllAux F lim ((cache.length - 0) + 1) ⟨true, L, cache, 0⟩ := rfl
    _ = (cache.drop 0, reset ⟨true, L, cache, 0⟩) :=
        readAllAux_eager F lim ((cache.length - 0) + 1) ⟨true, L, cache, 0⟩
          rfl (by show cache.length - 0 < cache.length - 0 + 1; omega)
    _ = (cache, ⟨true, resetState L, cache, 0⟩) := by
        rw [List.drop_zero]
        rfl

/-- C3: in both lazy and eager modes, reading a fresh stream to
exhaustion, calling `reset`, and reading it again to exhaustion yields
the identical sequence of call records (the same list, hence same
fields, order, repeat counts and sequence ids). -/
theorem c3_theorem (F : Formatters) (lim : Nat) (ram : Bool)
    (raw : List Row) :
    (readAllFrom F lim
        (reset (readAllFrom F lim (initPState F lim ram raw)).2)).1 =
      (readAllFrom F lim (initPState F lim ram raw)).1 := by
  cases ram with
  | false =>
    rw [show initPState F lim false raw =
        ⟨false, initState raw, [], 0⟩ from rfl]
    have h2 : (readAllFrom F lim ⟨false, initState raw, [], 0⟩).2 =
        ⟨false, initState raw, [], 0⟩ := by
      rw [readAll_lazy_init F lim raw]
    rw [h2, show reset (⟨false, initState raw, [], 0⟩ : PState) =
        ⟨false, initState raw, [], 0⟩ from rfl]
  | true =>
    rw [show initPState F lim true raw =
        ⟨true, (drainAux F lim (raw.length + 1) (initState raw)).2,
         (drainAux F lim (raw.length + 1) (initState raw)).1, 0⟩ from rfl]
    generalize drainAux F lim (raw.length + 1) (initState raw) = D
    have h2 : (readAllFrom F lim ⟨true, D.2, D.1, 0⟩).2 =
        ⟨true, resetState D.2, D.1, 0⟩ := by
      rw [readAll_eager_state F lim D.2 D.1]
    have h1 : (readAllFrom F lim ⟨true, D.2, D.1, 0⟩).1 = D.1 := by
      rw [readAll_eager_state F lim D.2 D.1]
    have h3 : (readAllFrom F lim ⟨true, resetState D.2, D.1, 0⟩).1 = D.1 := by
      rw [readAll_eager_state F lim (resetState D.2) D.1]
    rw [h2, show reset (⟨true, resetState D.2, D.1, 0⟩ : PState) =
        ⟨true, resetState D.2, D.1, 0⟩ from rfl, h3, h1]

/-- A record parsed in reporting mode never receives a raw value. -/
theorem parseRow_rawFree (F : Formatters) (r : Row) :
    rawFreeCall (parseRow F true r) = true := by
  show (r.args.map (parseArgument F true r.category r.api)).all
    (fun a => a.raw_value == none) = true
  simp only [List.all_eq_true, List.mem_map]
  rintro a ⟨p, hp, rfl⟩
  rfl

/-- A stripped record has no raw values. -/
theorem stripCall_rawFree (c : Call) :
    rawFreeCall (stripCall c) = true := by
  simp [rawFreeCall, stripCall, List.all_eq_true]

/-- A stripped cache has no raw values. -/
theorem rawFreeList_map_strip (l : List Call) :
    rawFreeList (l.map stripCall) = true := by
  simp only [rawFreeList, List.all_eq_true]
  intro c hc
  obtain ⟨a, _, ha⟩ := List.mem_map.mp hc
  rw [← ha]
  exact stripCall_rawFree a

/-- Raw-freeness survives taking a suffix. -/
theorem rawFreeList_drop (l : List Call) (n : Nat)
    (h : rawFreeList l = true) : rawFreeList (l.drop n) = true := by
  simp only [rawFreeList, List.all_eq_true] at h ⊢
  intro x hx
  exact h x (List.drop_subset n l hx)

/-- Raw-freeness of a record only depends on its arguments, which the
folding loop leaves at the first record's. -/
theorem mergeLoop_fst_rawFree (F : Formatters) (rm : Bool) (l : List Row)
    (nc : Call) (h : rawFreeCall nc = true) :
    rawFreeCall (mergeLoop F rm nc l).1 = true := by
  rw [mergeLoop_fst_frame F rm l nc]
  exact h

/-- In reporting mode the folding loop can only leave a raw-free record
pending. -/
theorem mergeLoop_lastcall_rawFree (F : Formatters) :
    ∀ (l : List Row) (nc : Call),
      Option.all rawFreeCall (mergeLoop F true nc l).2.1 = true := by
  intro l
  induction l with
  | nil => intro nc; rfl
  | cons r rest ih =>
    intro nc
    by_cases h : compare_calls nc (parseRow F true r) = true
    · rw [mergeLoop_cons_eq F true nc r rest h]
      exact ih _
    · rw [mergeLoop_cons_ne F true nc r rest (by simpa using h)]
      simpa [Option.all] using parseRow_rawFree F r

/-- Invariant: in reporting mode with a raw-free (or absent) pending
call, one step produces only raw-free records and preserves the
invariant. -/
theorem cacheless_next_rawFree (F : Formatters) (lim : Nat)
    (s : LogState) (o : Option Call) (s' : LogState)
    (hrm : s.reporting_mode = true)
    (hlc : Option.all rawFreeCall s.lastcall = true)
    (h : cacheless_next F lim s = (o, s')) :
    Option.all rawFreeCall o = true ∧ s'.reporting_mode = true ∧
      Option.all rawFreeCall s'.lastcall = true := by
  obtain ⟨raw, stream, lastcall, rm, k, i⟩ := s
  simp only [LogState.reporting_mode] at hrm
  subst hrm
  by_cases hb : lim ≠ 0 ∧ k + 1 > lim
  · rw [cacheless_next_ceiling F lim _ hb.1 hb.2] at h
    obtain ⟨h1, h2⟩ := Prod.mk.injEq _ _ _ _ ▸ h
    subst h2
    simp [← h1, resetState]
  · cases lastcall with
    | some c0 =>
      rw [cacheless_next_ready F lim raw stream c0 true k i hb] at h
      obtain ⟨h1, h2⟩ := Prod.mk.injEq _ _ _ _ ▸ h
      subst h2
      simp only [Option.all] at hlc
      refine ⟨?_, rfl, mergeLoop_lastcall_rawFree F stream c0⟩
      rw [← h1]
      simpa [Option.all] using mergeLoop_fst_rawFree F true stream c0 hlc
    | none =>
      cases stream with
      | nil =>
        rw [cacheless_next_empty] at h
        obtain ⟨h1, h2⟩ := Prod.mk.injEq _ _ _ _ ▸ h
        subst h2
        simp [← h1]
      | cons r rest =>
        rw [cacheless_next_pull F lim raw r rest true k i hb] at h
        obtain ⟨h1, h2⟩ := Prod.mk.injEq _ _ _ _ ▸ h
        subst h2
        refine ⟨?_, rfl, mergeLoop_lastcall_rawFree F rest (parseRow F true r)⟩
        rw [← h1]
        simpa [Option.all] using
          mergeLoop_fst_rawFree F true rest (parseRow F true r)
            (parseRow_rawFree F r)

/-- In reporting mode with no raw-bearing pending call, the lazy drain
only ever produces raw-free records. -/
theorem drainAux_rawFree (F : Formatters) (lim : Nat) :
    ∀ (fuel : Nat) (s : LogState), s.reporting_mode = true →
      Option.all rawFreeCall s.lastcall = true →
      rawFreeList (drainAux F lim fuel s).1 = true := by
  intro fuel
  induction fuel with
  | zero => intro s _ _; rfl
  | succ f ih =>
    intro s hrm hlc
    cases h : cacheless_next F lim s with
    | mk o s' =>
      obtain ⟨ho, hrm', hlc'⟩ := cacheless_next_rawFree F lim s o s' hrm hlc h
      cases o with
      | none => rw [drainAux_succ_none F lim f s s' h]; rfl
      | some c =>
        rw [drainAux_succ_some F lim f s s' c h]
        simp only [Option.all] at ho
        simpa [rawFreeList, ho] using ih s' hrm' hlc'

/-- C4 (amended): after `begin_reporting`, provided no record is
pending at the transition (`lastcall` empty, e.g. at a reset point),
reading the stream to exhaustion yields no record retaining a raw
argument value, under either caching policy: the eager cache is
stripped in place, and lazy re-parsing omits raw values once reporting
mode is on.  (A record already pending at the transition is returned
unmodified — see the counterexample.) -/
theorem c4_amended_theorem (F : Formatters) (lim : Nat) (s : PState)
    (h : s.log.lastcall = none) :
    rawFreeList (readAllFrom F lim (begin_reporting s)).1 = true := by
  cases hram : s.ram_boost with
  | false =>
    have hb : begin_reporting s =
        { s with log := { s.log with reporting_mode := true } } := by
      simp [begin_reporting, hram]
    rw [hb]
    have hlazy := readAllAux_lazy F lim
      (pMeasure { s with log := { s.log with reporting_mode := true } } + 1)
      { s with log := { s.log with reporting_mode := true } }
      (by simp [hram])
    rw [show readAllFrom F lim
        { s with log := { s.log with reporting_mode := true } } =
        readAllAux F lim
          (pMeasure { s with log := { s.log with reporting_mode := true } } + 1)
          { s with log := { s.log with reporting_mode := true } } from rfl,
        hlazy]
    exact drainAux_rawFree F lim _ _ (by simp) (by simp [h])
  | true =>
    have hb : begin_reporting s =
        { s with log := { s.log with reporting_mode := true },
                 api_call_cache := s.api_call_cache.map stripCall } := by
      simp [begin_reporting, hram]
    rw [hb]
    have heager := readAllAux_eager F lim
      (pMeasure { s with log := { s.log with reporting_mode := true },
                         api_call_cache := s.api_call_cache.map stripCall } + 1)
      { s with log := { s.log with reporting_mode := true },
               api_call_cache := s.api_call_cache.map stripCall }
      (by simp [hram])
      (by simp [pMeasure, hram])
    rw [show readAllFrom F lim
        { s with log := { s.log with reporting_mode := true },
                 api_call_cache := s.api_call_cache.map stripCall } =
        readAllAux F lim
          (pMeasure { s with log := { s.log with reporting_mode := true },
                             api_call_cache := s.api_call_cache.map stripCall } + 1)
          { s with log := { s.log with reporting_mode := true },
                   api_call_cache := s.api_call_cache.map stripCall } from rfl,
        heager]
    exact rawFreeList_drop _ _ (rawFreeList_map_strip s.api_call_cache)

/-- C4 witness: a fresh lazy stream over one call (no pending record),
transitioned to reporting mode and read out: no raw values anywhere. -/
theorem c4_witness :
    (initPState F0 0 false [rowA]).log.lastcall = none ∧
    rawFreeList
      (readAllFrom F0 0 (begin_reporting (initPState F0 0 false [rowA]))).1 =
      true :=
  ⟨rfl, c4_amended_theorem F0 0 (initPState F0 0 false [rowA]) rfl⟩

/-- `add_node` never changes the tree's top level: insertions happen
only inside `children` lists. -/
theorem addNodeAux_rootInfos (n : PTree) :
    ∀ (fuel : Nat) (forest : List PTree),
      rootInfos (addNodeAux fuel n forest) = rootInfos forest := by
  intro fuel
  cases fuel with
  | zero => intro forest; rfl
  | succ f =>
    intro forest
    induction forest with
    | nil => rfl
    | cons t ts ih =>
      cases t with
      | node i kids =>
        cases hpid : i.pid == parentIdOfTree n with
        | true =>
          simp only [addNodeAux, List.map_cons, rootInfos, hpid, if_true] at ih ⊢
          exact congrArg (i :: ·) (by simpa [addNodeAux, rootInfos] using ih)
        | false =>
          simp only [addNodeAux, List.map_cons, rootInfos, hpid, if_false] at ih ⊢
          exact congrArg (i :: ·) (by simpa [addNodeAux, rootInfos] using ih)

/-- Inserting any sequence of children leaves the roots unchanged. -/
theorem foldl_addNodeAux_rootInfos (f : Nat) :
    ∀ (children : List PInfo) (forest : List PTree),
      rootInfos (children.foldl
        (fun tree c => addNodeAux f (PTree.node c []) tree) forest) =
        rootInfos forest := by
  intro children
  induction children with
  | nil => intro forest; rfl
  | cons c cs ih =>
    intro forest
    simp only [List.foldl_cons]
    rw [ih, addNodeAux_rootInfos]

/-- C8 (amended): on the claim's process set the tree has exactly the
two roots pid 1 and pid 3 with pid 2 a child of pid 1 (first conjunct);
in general every process with no parent in the set becomes a root, in
recording order (second conjunct); but a process whose parent node is
not yet in the tree when it is inserted is silently dropped rather than
attached — recording the same set in the order pid 1, pid 3 (child of
pid 2), pid 2 (child of pid 1) loses pid 3 entirely (third conjunct). -/
theorem c8_amended_theorem :
    ptreeRun [pi1, pi2, pi3] =
      [PTree.node pi1 [PTree.node pi2 []], PTree.node pi3 []] ∧
    (∀ ps : List PInfo,
       rootInfos (ptreeRun ps) = ps.filter (fun p => !hasParentIn ps p)) ∧
    ptreeRun [pi1, pi3c, pi2] = [PTree.node pi1 [PTree.node pi2 []]] := by
  refine ⟨rfl, ?_, rfl⟩
  intro ps
  show rootInfos ((ps.filter (fun p => hasParentIn ps p)).foldl
      (fun tree c => addNodeAux (ps.length + 1) (PTree.node c []) tree)
      ((ps.filter (fun p => !hasParentIn ps p)).map
        (fun p => PTree.node p []))) = _
  rw [foldl_addNodeAux_rootInfos]
  generalize List.filter (fun p => !hasParentIn ps p) ps = l
  induction l with
  | nil => rfl
  | cons a as iha =>
    simp only [rootInfos, List.map_cons] at iha ⊢
    exact congrArg (a :: ·) iha

end Cuckoo
